import Mathlib

/-
Verification of the Mementogram backend services against their
natural-language specification.  The definitions below are a shallow
embedding of the TypeScript service layer
(likeService, followService, commentService, postService, feedService):
the relational store is a record of lists of rows, each service function
is a pure function from a state (plus a clock value used where the code
writes a timestamp) to a result together with the successor state.
-/

namespace Mementogram

/-- Service-level error taxonomy (errors.ts): NotFoundError,
ConflictError, BadRequestError, ForbiddenError. -/
inductive SvcError where
  | notFound
  | conflict
  | badRequest
  | forbidden
deriving DecidableEq

/-- A row of the users table, restricted to the columns the verified
services read (password hash, email and role are never touched here). -/
structure UserRec where
  id : Nat
  username : String
  fullName : Option String
  bio : Option String
  profilePicUrl : Option String
  createdAt : Nat
deriving DecidableEq

/-- A row of the posts table. -/
structure PostRec where
  id : Nat
  userId : Nat
  content : String
  imageUrl : Option String
  createdAt : Nat
  updatedAt : Nat
deriving DecidableEq

/-- A row of the likes table: one signed vote of a user on a post
(vote_type is 1 for a like and -1 for a dislike). -/
structure LikeRec where
  userId : Nat
  postId : Nat
  voteType : Int
  createdAt : Nat
deriving DecidableEq

/-- A row of the comments table. -/
structure CommentRec where
  id : Nat
  postId : Nat
  userId : Nat
  content : String
  createdAt : Nat
  updatedAt : Nat
deriving DecidableEq

/-- A row of the follows table: a directed follow edge. -/
structure FollowRec where
  followerId : Nat
  followingId : Nat
  createdAt : Nat
deriving DecidableEq

/-- The relational store.  nextCommentId models the auto-increment
sequence of the comments table. -/
structure State where
  users : List UserRec
  posts : List PostRec
  likes : List LikeRec
  comments : List CommentRec
  follows : List FollowRec
  nextCommentId : Nat
deriving DecidableEq

/-- Insert an element into a list that is sorted descending on the given
key, after every element with a strictly larger key (stable). -/
def insertDesc (key : α → Nat) (a : α) : List α → List α
  | [] => [a]
  | b :: l => if key a < key b then b :: insertDesc key a l else a :: b :: l

/-- Sort a list descending on the given key (models ORDER BY key DESC). -/
def sortDesc (key : α → Nat) : List α → List α
  | [] => []
  | a :: l => insertDesc key a (sortDesc key l)

/-- OFFSET offset LIMIT limit applied to an ordered result set. -/
def pageOf (offset limit : Nat) (l : List α) : List α :=
  (l.drop offset).take limit

/-- SELECT ... FROM posts WHERE id = postId LIMIT 1. -/
def findPost (st : State) (postId : Nat) : Option PostRec :=
  st.posts.find? (fun p => p.id == postId)

/-- Whether the posts table holds a row with the given id. -/
def postExists (st : State) (postId : Nat) : Bool :=
  (findPost st postId).isSome

/-- Whether the users table holds a row with the given id. -/
def userExists (st : State) (userId : Nat) : Bool :=
  (st.users.find? (fun u => u.id == userId)).isSome

/-- SELECT ... FROM likes WHERE user_id = userId AND post_id = postId
LIMIT 1. -/
def findVote (st : State) (userId postId : Nat) : Option LikeRec :=
  st.likes.find? (fun l => l.userId == userId && l.postId == postId)

/-- likeService.castOrRemoveVote: toggle or switch the vote of a user on
a post.  Mirrors the source: a missing post is NotFound; an existing vote
equal to the desired type is deleted (result 0); an existing different
vote is updated in place to the desired type, refreshing created_at; an
absent vote is inserted (result = desired type). -/
def castOrRemoveVote (st : State) (userId postId : Nat) (voteTypeToSet : Int)
    (now : Nat) : Except SvcError Int × State :=
  if (findPost st postId).isNone then
    (.error .notFound, st)
  else
    match findVote st userId postId with
    | some currentVote =>
      if currentVote.voteType == voteTypeToSet then
        (.ok 0,
         { st with likes :=
            st.likes.filter (fun l => !(l.userId == userId && l.postId == postId)) })
      else
        (.ok voteTypeToSet,
         { st with likes :=
            st.likes.map (fun l =>
              if l.userId == userId && l.postId == postId then
                { l with voteType := voteTypeToSet, createdAt := now }
              else l) })
    | none =>
      (.ok voteTypeToSet,
       { st with likes := st.likes ++ [⟨userId, postId, voteTypeToSet, now⟩] })

/-- likeService.likePost: cast a +1 vote. -/
def likePost (st : State) (userId postId now : Nat) :
    Except SvcError Int × State :=
  castOrRemoveVote st userId postId 1 now

/-- likeService.dislikePost: cast a -1 vote. -/
def dislikePost (st : State) (userId postId now : Nat) :
    Except SvcError Int × State :=
  castOrRemoveVote st userId postId (-1) now

/-- likeService.getUserVoteOnPost: 0 for an anonymous user, else the
stored vote_type or 0 when no row exists. -/
def getUserVoteOnPost (st : State) (userId : Option Nat) (postId : Nat) : Int :=
  match userId with
  | none => 0
  | some uid =>
    match findVote st uid postId with
    | some vote => vote.voteType
    | none => 0

/-- The vote status of a (known) user on a post, as stored. -/
def voteStatus (st : State) (userId postId : Nat) : Int :=
  getUserVoteOnPost st (some userId) postId

/-- likeService.getVoteCounts: the number of +1 rows and of -1 rows for
the post. -/
def getVoteCounts (st : State) (postId : Nat) : Nat × Nat :=
  (st.likes.countP (fun l => l.postId == postId && l.voteType == 1),
   st.likes.countP (fun l => l.postId == postId && l.voteType == (-1 : Int)))

/-! ## Follow service -/

/-- followService.followUser: BadRequest on self-follow, NotFound when
the target user is absent, Conflict when the edge already exists,
otherwise the edge is inserted. -/
def followUser (st : State) (followerId followingId now : Nat) :
    Except SvcError Unit × State :=
  if followerId == followingId then
    (.error .badRequest, st)
  else if (st.users.find? (fun u => u.id == followingId)).isNone then
    (.error .notFound, st)
  else if (st.follows.find? (fun f =>
      f.followerId == followerId && f.followingId == followingId)).isSome then
    (.error .conflict, st)
  else
    (.ok (), { st with follows := st.follows ++ [⟨followerId, followingId, now⟩] })

/-- followService.unfollowUser: delete the edge; NotFound when the
delete touched zero rows. -/
def unfollowUser (st : State) (followerId followingId : Nat) :
    Except SvcError Unit × State :=
  let remaining := st.follows.filter (fun f =>
    !(f.followerId == followerId && f.followingId == followingId))
  if remaining.length == st.follows.length then
    (.error .notFound, st)
  else
    (.ok (), { st with follows := remaining })

/-- The joined rows of users u JOIN follows f ON u.id = f.following_id
WHERE f.follower_id = userId, before ordering. -/
def followingJoin (st : State) (userId : Nat) : List (FollowRec × UserRec) :=
  (st.follows.filter (fun f => f.followerId == userId)).filterMap
    (fun f => (st.users.find? (fun u => u.id == f.followingId)).map (fun u => (f, u)))

/-- The user records behind followService.getFollowing: joined rows
ordered by the edge creation time descending, then paginated. -/
def followingUsers (st : State) (userId limit offset : Nat) : List UserRec :=
  (pageOf offset limit (sortDesc (fun x => x.1.createdAt) (followingJoin st userId))).map
    (fun x => x.2)

/-- The joined rows of users u JOIN follows f ON u.id = f.follower_id
WHERE f.following_id = userId, before ordering. -/
def followersJoin (st : State) (userId : Nat) : List (FollowRec × UserRec) :=
  (st.follows.filter (fun f => f.followingId == userId)).filterMap
    (fun f => (st.users.find? (fun u => u.id == f.followerId)).map (fun u => (f, u)))

/-- The user records behind followService.getFollowers. -/
def followersUsers (st : State) (userId limit offset : Nat) : List UserRec :=
  (pageOf offset limit (sortDesc (fun x => x.1.createdAt) (followersJoin st userId))).map
    (fun x => x.2)

/-- The column names (JavaScript object keys) produced by the select
aliases that appear in the verified queries. -/
inductive FieldKey where
  | id
  | username
  | fullName
  | bio
  | profilePicUrl
  | profilPicUrl
  | createdAt
  | postId
  | count
  | likeCount
  | commentCount
deriving DecidableEq

/-- A column value of a result row: a number, a string or SQL NULL. -/
inductive Val where
  | vnat (n : Nat)
  | vint (i : Int)
  | vstr (s : String)
  | vnull
deriving DecidableEq

/-- An optional text column rendered as a row value. -/
def optVal : Option String → Val
  | some s => .vstr s
  | none => .vnull

/-- A result row, as the JavaScript object the query builder returns:
a finite map from column name to value. -/
abbrev Row := List (FieldKey × Val)

/-- Read a column of a row; none models a missing (undefined) key. -/
def rowGet (k : FieldKey) (r : Row) : Option Val :=
  (r.find? (fun kv => kv.1 == k)).map (fun kv => kv.2)

/-- parseInt((row.key as string) or else "0", 10) applied to a count
column: a missing or non-numeric value parses as 0. -/
def rowNat (k : FieldKey) (r : Row) : Nat :=
  match rowGet k r with
  | some (.vnat n) => n
  | _ => 0

/-- The public profile projection of followService.getFollowing: the
select aliases id, username, fullName, bio, profilePicUrl, createdAt. -/
def publicProfileRow (u : UserRec) : Row :=
  [(.id, .vnat u.id), (.username, .vstr u.username), (.fullName, optVal u.fullName),
   (.bio, optVal u.bio), (.profilePicUrl, optVal u.profilePicUrl),
   (.createdAt, .vnat u.createdAt)]

/-- The projection of followService.getFollowers, exactly as its select
writes it: the profile picture column is aliased profilPicUrl. -/
def followerProfileRow (u : UserRec) : Row :=
  [(.id, .vnat u.id), (.username, .vstr u.username), (.fullName, optVal u.fullName),
   (.bio, optVal u.bio), (.profilPicUrl, optVal u.profilePicUrl),
   (.createdAt, .vnat u.createdAt)]

/-- followService.getFollowing: paginated projections of the followed
users, ordered by edge creation time descending. -/
def getFollowing (st : State) (userId limit offset : Nat) : List Row :=
  (followingUsers st userId limit offset).map publicProfileRow

/-- followService.getFollowers: paginated projections of the followers,
ordered by edge creation time descending. -/
def getFollowers (st : State) (userId limit offset : Nat) : List Row :=
  (followersUsers st userId limit offset).map followerProfileRow

/-! ## Comment service -/

/-- The shape of a comment returned to the client: the comment joined
with the public fields of its author. -/
structure CommentOutput where
  id : Nat
  postId : Nat
  content : String
  createdAt : Nat
  updatedAt : Nat
  authorId : Nat
  authorUsername : String
  authorProfilePicUrl : Option String
deriving DecidableEq

/-- commentService helper getCommentWithAuthor: the comment joined with
its author; a missing comment or a missing author yields no joined row
and hence NotFound. -/
def getCommentWithAuthor (st : State) (commentId : Nat) :
    Except SvcError CommentOutput :=
  match st.comments.find? (fun c => c.id == commentId) with
  | none => .error .notFound
  | some c =>
    match st.users.find? (fun u => u.id == c.userId) with
    | none => .error .notFound
    | some u =>
      .ok ⟨c.id, c.postId, c.content, c.createdAt, c.updatedAt,
           u.id, u.username, u.profilePicUrl⟩

/-- Whether a character is in the whitespace set stripped by trim
(restricted to blank, tab, carriage return and line feed). -/
def isSpaceChar (c : Char) : Bool :=
  c == ' ' || c == '\t' || c == '\n' || c == '\r'

/-- content.trim(): strip leading and trailing whitespace from the
character list of the string. -/
def trimString (s : String) : String :=
  String.mk (((s.data.dropWhile isSpaceChar).reverse.dropWhile isSpaceChar).reverse)

/-- commentService.createComment: BadRequest when the content is empty
after trimming, NotFound when the post is absent, otherwise the trimmed
comment is inserted and returned joined with its author. -/
def createComment (st : State) (userId postId : Nat) (content : String)
    (now : Nat) : Except SvcError CommentOutput × State :=
  if trimString content == "" then
    (.error .badRequest, st)
  else if (findPost st postId).isNone then
    (.error .notFound, st)
  else
    let cid := st.nextCommentId
    let st' := { st with
      comments := st.comments ++ [⟨cid, postId, userId, trimString content, now, now⟩],
      nextCommentId := cid + 1 }
    (getCommentWithAuthor st' cid, st')

/-- commentService.getCommentCount: the number of comment rows on the
post. -/
def getCommentCount (st : State) (postId : Nat) : Nat :=
  st.comments.countP (fun c => c.postId == postId)

/-! ## Post service -/

/-- The nested author object of a feed post. -/
structure AuthorInfo where
  id : Nat
  username : String
  fullName : Option String
  profilePicUrl : Option String
deriving DecidableEq

/-- FeedPostOutput: a post enriched with its author and its engagement
numbers. -/
structure FeedPostOutput where
  id : Nat
  content : String
  imageUrl : Option String
  createdAt : Nat
  updatedAt : Nat
  author : AuthorInfo
  likeCount : Nat
  commentCount : Nat
  currentUserVote : Int
deriving DecidableEq

/-- PostUpdateInput: the sparse update patch.  content is present or
absent; imageUrl is present (possibly explicitly null) or absent. -/
structure PostUpdateInput where
  content : Option String
  imageUrl : Option (Option String)
deriving DecidableEq

/-- postService.findPostById: the post joined with its author (a missing
post or a missing author leaves the join empty, hence NotFound),
enriched with vote counts, comment count and the vote of the requesting
user. -/
def findPostById (st : State) (postId : Nat) (currentUserId : Option Nat) :
    Except SvcError FeedPostOutput :=
  match findPost st postId with
  | none => .error .notFound
  | some p =>
    match st.users.find? (fun u => u.id == p.userId) with
    | none => .error .notFound
    | some u =>
      .ok { id := p.id, content := p.content, imageUrl := p.imageUrl,
            createdAt := p.createdAt, updatedAt := p.updatedAt,
            author := ⟨u.id, u.username, u.fullName, u.profilePicUrl⟩,
            likeCount := (getVoteCounts st postId).1,
            commentCount := getCommentCount st postId,
            currentUserVote := getUserVoteOnPost st currentUserId postId }

/-- Apply the sparse patch to a post row, as the UPDATE statement whose
set clause holds exactly the present fields. -/
def applyPatch (upd : PostUpdateInput) (p : PostRec) : PostRec :=
  { p with
    content := upd.content.getD p.content,
    imageUrl := upd.imageUrl.getD p.imageUrl }

/-- postService.updatePost.  An empty patch issues no write: the post is
fetched under the (id, authorId) filter and, when that misses, a
follow-up existence check on the id alone splits NotFound from
Forbidden.  A non-empty patch is written under the same (id, authorId)
filter, with the same split when zero rows were affected; on success the
enriched post is re-read. -/
def updatePost (st : State) (postId userId : Nat) (upd : PostUpdateInput) :
    Except SvcError FeedPostOutput × State :=
  if upd.content.isNone && upd.imageUrl.isNone then
    match st.posts.find? (fun p => p.id == postId && p.userId == userId) with
    | none =>
      if postExists st postId then (.error .forbidden, st)
      else (.error .notFound, st)
    | some _ => (findPostById st postId (some userId), st)
  else
    let affected := st.posts.countP (fun p => p.id == postId && p.userId == userId)
    if affected == 0 then
      if postExists st postId then (.error .forbidden, st)
      else (.error .notFound, st)
    else
      let st' := { st with posts := st.posts.map (fun p =>
        if p.id == postId && p.userId == userId then applyPatch upd p else p) }
      (findPostById st' postId (some userId), st')

/-- postService.deletePost: delete under the (id, authorId) filter; when
zero rows were deleted, an existence check on the id alone splits
NotFound from Forbidden. -/
def deletePost (st : State) (postId userId : Nat) :
    Except SvcError Unit × State :=
  let remaining := st.posts.filter (fun p => !(p.id == postId && p.userId == userId))
  if remaining.length == st.posts.length then
    if postExists st postId then (.error .forbidden, st)
    else (.error .notFound, st)
  else
    (.ok (), { st with posts := remaining })

/-! ## Feed service -/

/-- The joined rows of posts p JOIN users u ON p.user_id = u.id. -/
def postJoin (st : State) : List (PostRec × UserRec) :=
  st.posts.filterMap
    (fun p => (st.users.find? (fun u => u.id == p.userId)).map (fun u => (p, u)))

/-- The grouped rows of the feed's batch like-count query: one row per
post of the page that has at least one vote_type = 1 row, holding the
columns post_id and count (the count aggregate is aliased count). -/
def feedLikeCountRows (st : State) (postIds : List Nat) : List Row :=
  postIds.dedup.filterMap (fun pid =>
    let c := st.likes.countP (fun l => l.voteType == 1 && l.postId == pid)
    if c == 0 then none
    else some [(.postId, .vnat pid), (.count, .vnat c)])

/-- The grouped rows of the feed's batch comment-count query: columns
post_id and commentCount. -/
def feedCommentCountRows (st : State) (postIds : List Nat) : List Row :=
  postIds.dedup.filterMap (fun pid =>
    let c := st.comments.countP (fun c => c.postId == pid)
    if c == 0 then none
    else some [(.postId, .vnat pid), (.commentCount, .vnat c)])

/-- The author set of the feed: the requesting user plus the ids of
getFollowing(userId, limit 1000). -/
def feedAuthorIds (st : State) (userId : Nat) : List Nat :=
  userId :: (followingUsers st userId 1000 0).map (fun u => u.id)

/-- The page of the feed: posts by the author set joined with their
authors, ordered by post creation time descending and paginated. -/
def feedPage (st : State) (userId limit offset : Nat) :
    List (PostRec × UserRec) :=
  pageOf offset limit (sortDesc (fun x => x.1.createdAt)
    ((postJoin st).filter (fun x => (feedAuthorIds st userId).contains x.1.userId)))

/-- feedService.getFeedForUser.  The author set is the requesting user
plus the ids of getFollowing(userId, limit 1000); the page of posts by
those authors is joined with author fields, ordered by post creation
time descending and paginated; an empty page short-circuits; otherwise
three batch queries keyed by the page's post ids supply like counts
(read back under the alias likeCount although the query wrote count),
comment counts and the requesting user's votes, which are merged into
the output records. -/
def getFeedForUser (st : State) (userId limit offset : Nat) :
    List FeedPostOutput :=
  let page := feedPage st userId limit offset
  if page.isEmpty then []
  else
    let postIds := page.map (fun x => x.1.id)
    let likeCountsMap := (feedLikeCountRows st postIds).map
      (fun r => (rowNat .postId r, rowNat .likeCount r))
    let commentCountsMap := (feedCommentCountRows st postIds).map
      (fun r => (rowNat .postId r, rowNat .commentCount r))
    let userVotes := (st.likes.filter (fun l =>
      l.userId == userId && postIds.contains l.postId)).map
      (fun l => (l.postId, l.voteType))
    page.map (fun x =>
      { id := x.1.id, content := x.1.content, imageUrl := x.1.imageUrl,
        createdAt := x.1.createdAt, updatedAt := x.1.updatedAt,
        author := ⟨x.2.id, x.2.username, x.2.fullName, x.2.profilePicUrl⟩,
        likeCount := (likeCountsMap.lookup x.1.id).getD 0,
        commentCount := (commentCountsMap.lookup x.1.id).getD 0,
        currentUserVote := (userVotes.lookup x.1.id).getD 0 })

/-! ## Specification-side descriptions of the feed (for refinement) -/

/-- Modelled from the spec: the author set of the feed, following the
words of section 4.5 step 1 with the internal cap made explicit — the
requesting user plus the ids of the up-to-1000 most recently followed
users. -/
def specCappedAuthorIds (st : State) (userId : Nat) : List Nat :=
  userId ::
    ((sortDesc (fun f => f.createdAt)
        (st.follows.filter (fun f => f.followerId == userId))).take 1000).map
      (fun f => f.followingId)

/-- Modelled from the spec: the page of feed posts — the posts whose
author is in the capped author set, ordered by post creation time
descending and paginated by limit/offset. -/
def specFeedPosts (st : State) (userId limit offset : Nat) : List PostRec :=
  pageOf offset limit (sortDesc (fun p => p.createdAt)
    (st.posts.filter (fun p => (specCappedAuthorIds st userId).contains p.userId)))

/-- The author set exactly as claim C3 words it, with no cap: the
requesting user plus every user they follow. -/
def claimAuthorIds (st : State) (userId : Nat) : List Nat :=
  userId ::
    (st.follows.filter (fun f => f.followerId == userId)).map (fun f => f.followingId)

/-- The page of feed posts exactly as claim C3 words it: the posts whose
author is in the uncapped author set, ordered by creation time
descending and paginated. -/
def claimFeedPosts (st : State) (userId limit offset : Nat) : List PostRec :=
  pageOf offset limit (sortDesc (fun p => p.createdAt)
    (st.posts.filter (fun p => (claimAuthorIds st userId).contains p.userId)))

/-! ## Concrete states used by the witnesses and counterexamples -/

/-- A throwaway user record with the given id. -/
def plainUser (i : Nat) : UserRec :=
  ⟨i, toString i, none, none, none, i⟩

/-- Two users, user 1 following user 2, one post by user 2: the state of
the worked example of the spec (claim C2), before the like. -/
def exStC2 : State :=
  { users := [⟨1, "alice", none, none, none, 10⟩, ⟨2, "bob", none, none, none, 11⟩],
    posts := [⟨10, 2, "hello", none, 50, 50⟩],
    likes := [], comments := [],
    follows := [⟨1, 2, 100⟩],
    nextCommentId := 1 }

/-- The same state after user 1 likes post 10. -/
def exStC2b : State :=
  (likePost exStC2 1 10 200).2

/-- Carol (with a profile picture) follows Dave (with a profile
picture). -/
def exStC9 : State :=
  { users := [⟨1, "carol", some "Carol", some "hi", some "pic1.png", 5⟩,
              ⟨2, "dave", none, none, some "pic2.png", 6⟩],
    posts := [], likes := [], comments := [],
    follows := [⟨1, 2, 100⟩],
    nextCommentId := 1 }

/-- A user (id 0) who follows 1001 users (ids 1 to 1001); the edge to
user 1001 is the oldest, so the feed's internal cap of 1000 followed
users drops exactly that author.  User 1001 has the only post. -/
def bigSt : State :=
  { users := ((List.range 1001).map (fun i => plainUser (i + 1))) ++ [plainUser 0],
    posts := [⟨10, 1001, "p", none, 500, 500⟩],
    likes := [], comments := [],
    follows := (List.range 1001).map (fun i => ⟨0, i + 1, 20000 - i⟩),
    nextCommentId := 1 }

/-! ## Sequences of vote operations and the vote-table invariant -/

/-- One like/dislike button press: likePost when isLike, dislikePost
otherwise. -/
structure VoteOp where
  userId : Nat
  postId : Nat
  isLike : Bool
  now : Nat
deriving DecidableEq

/-- Apply one vote operation; a failed operation (missing post) leaves
the store unchanged. -/
def applyVoteOp (st : State) (op : VoteOp) : State :=
  if op.isLike then (likePost st op.userId op.postId op.now).2
  else (dislikePost st op.userId op.postId op.now).2

/-- Run a sequence of vote operations. -/
def runVotes (st : State) (ops : List VoteOp) : State :=
  ops.foldl applyVoteOp st

/-- A batch of button presses: every user of the list casts the same
vote on the same post. -/
def castsOf (p : Nat) (isLike : Bool) (ws : List Nat) (t : Nat) : List VoteOp :=
  ws.map (fun w => ⟨w, p, isLike, t⟩)

/-- Every stored vote is +1 or -1. -/
def VotesOK (ls : List LikeRec) : Prop :=
  ∀ l ∈ ls, l.voteType = 1 ∨ l.voteType = -1

/-- No two stored votes share the (user, post) pair. -/
def KeysDistinct (ls : List LikeRec) : Prop :=
  ls.Pairwise (fun a b => ¬(a.userId = b.userId ∧ a.postId = b.postId))

/-- The vote-table invariant of claim C8. -/
def LikesWF (st : State) : Prop :=
  VotesOK st.likes ∧ KeysDistinct st.likes

/-- The user record a join associates with an id, when it exists (an
arbitrary record otherwise); used to state the join lemmas. -/
def userFor (st : State) (i : Nat) : UserRec :=
  (st.users.find? (fun u => u.id == i)).getD ⟨0, "", none, none, none, 0⟩

/-! ## Lemmas about the ordering and pagination combinators -/

theorem insertDesc_map (key : α → Nat) (g : β → α) (a : β) (l : List β) :
    insertDesc key (g a) (l.map g) = (insertDesc (fun b => key (g b)) a l).map g := by
  induction l with
  | nil => rfl
  | cons b t ih =>
    simp only [List.map_cons, insertDesc]
    by_cases h : key (g a) < key (g b)
    · simp [h, ih]
    · simp [h]

theorem sortDesc_map (key : α → Nat) (g : β → α) (l : List β) :
    sortDesc key (l.map g) = (sortDesc (fun b => key (g b)) l).map g := by
  induction l with
  | nil => rfl
  | cons b t ih => simp only [List.map_cons, sortDesc, ih, insertDesc_map]

theorem insertDesc_perm (key : α → Nat) (a : α) (l : List α) :
    (insertDesc key a l).Perm (a :: l) := by
  induction l with
  | nil => exact List.Perm.refl _
  | cons b t ih =>
    simp only [insertDesc]
    by_cases h : key a < key b
    · simp only [h, if_pos]
      exact (ih.cons b).trans (List.Perm.swap a b t)
    · simp [h]

theorem sortDesc_perm (key : α → Nat) (l : List α) :
    (sortDesc key l).Perm l := by
  induction l with
  | nil => exact List.Perm.refl _
  | cons a t ih => exact (insertDesc_perm key a (sortDesc key t)).trans (ih.cons a)

theorem mem_sortDesc {key : α → Nat} {l : List α} {x : α} :
    x ∈ sortDesc key l ↔ x ∈ l :=
  (sortDesc_perm key l).mem_iff

theorem length_sortDesc (key : α → Nat) (l : List α) :
    (sortDesc key l).length = l.length :=
  (sortDesc_perm key l).length_eq

theorem pairwise_insertDesc {key : α → Nat} {a : α} {l : List α}
    (h : l.Pairwise (fun x y => key y ≤ key x)) :
    (insertDesc key a l).Pairwise (fun x y => key y ≤ key x) := by
  induction l with
  | nil => simp [insertDesc]
  | cons b t ih =>
    simp only [insertDesc]
    rcases List.pairwise_cons.mp h with ⟨hb, ht⟩
    by_cases hab : key a < key b
    · rw [if_pos hab]
      refine List.pairwise_cons.mpr ⟨?_, ih ht⟩
      intro y hy
      rcases List.mem_cons.mp ((insertDesc_perm key a t).mem_iff.mp hy) with h1 | h2
      · exact h1 ▸ Nat.le_of_lt hab
      · exact hb y h2
    · rw [if_neg hab]
      refine List.pairwise_cons.mpr ⟨?_, h⟩
      intro y hy
      rcases List.mem_cons.mp hy with h1 | h2
      · exact h1 ▸ Nat.le_of_not_lt hab
      · exact Nat.le_trans (hb y h2) (Nat.le_of_not_lt hab)

theorem pairwise_sortDesc (key : α → Nat) (l : List α) :
    (sortDesc key l).Pairwise (fun x y => key y ≤ key x) := by
  induction l with
  | nil => simp [sortDesc]
  | cons a t ih => exact pairwise_insertDesc ih

/-- A list already sorted descending on the key is left unchanged. -/
theorem sortDesc_eq_self {key : α → Nat} {l : List α}
    (h : l.Pairwise (fun x y => key y ≤ key x)) : sortDesc key l = l := by
  induction l with
  | nil => rfl
  | cons a t ih =>
    rcases List.pairwise_cons.mp h with ⟨ha, ht⟩
    simp only [sortDesc, ih ht]
    cases t with
    | nil => rfl
    | cons b u =>
      have : ¬ key a < key b := Nat.not_lt.mpr (ha b (by simp))
      simp [insertDesc, this]

theorem pageOf_map (g : α → β) (offset limit : Nat) (l : List α) :
    pageOf offset limit (l.map g) = (pageOf offset limit l).map g := by
  simp [pageOf, List.map_drop, List.map_take]

theorem pageOf_sublist (offset limit : Nat) (l : List α) :
    (pageOf offset limit l).Sublist l :=
  ((l.drop offset).take_sublist limit).trans (l.drop_sublist offset)

theorem mem_pageOf {offset limit : Nat} {l : List α} {x : α}
    (h : x ∈ pageOf offset limit l) : x ∈ l :=
  (pageOf_sublist offset limit l).mem h

theorem pageOf_eq_self {limit : Nat} {l : List α} (h : l.length ≤ limit) :
    pageOf 0 limit l = l := by
  simp [pageOf, List.take_of_length_le h]

/-- filterMap of a function that is everywhere defined on the list is a
map (with an arbitrary default pulled out of the options). -/
theorem filterMap_eq_map_of_isSome (F : α → Option β) (d : β) (l : List α)
    (h : ∀ a ∈ l, (F a).isSome) :
    l.filterMap F = l.map (fun a => (F a).getD d) := by
  induction l with
  | nil => rfl
  | cons a t ih =>
    have ha := h a (by simp)
    rcases Option.isSome_iff_exists.mp ha with ⟨b, hb⟩
    simp only [List.filterMap_cons, List.map_cons, hb, Option.getD_some]
    exact congrArg (b :: ·) (ih (fun x hx => h x (by simp [hx])))

/-! ## Generic lemmas about find?, used for the vote state machine -/

theorem find?_append_none {p : α → Bool} {l₁ : List α} (l₂ : List α)
    (h : l₁.find? p = none) : (l₁ ++ l₂).find? p = l₂.find? p := by
  induction l₁ with
  | nil => rfl
  | cons a t ih =>
    by_cases ha : p a = true
    · rw [List.find?_cons_of_pos _ ha] at h
      exact absurd h (by simp)
    · rw [List.find?_cons_of_neg _ (by simpa using ha)] at h
      rw [List.cons_append, List.find?_cons_of_neg _ (by simpa using ha)]
      exact ih h

/-- A map that rewrites exactly the elements matching a predicate, with
a rewriter that preserves the predicate, moves through find?. -/
theorem find?_map_update (pred : α → Bool) (f : α → α)
    (hpres : ∀ a, pred (f a) = pred a) (l : List α) :
    (l.map (fun a => if pred a then f a else a)).find? pred =
      (l.find? pred).map f := by
  induction l with
  | nil => rfl
  | cons a t ih =>
    simp only [List.map_cons]
    by_cases h : pred a = true
    · rw [if_pos h, List.find?_cons_of_pos _ (by rw [hpres]; exact h),
          List.find?_cons_of_pos _ h]
      rfl
    · rw [if_neg h, List.find?_cons_of_neg _ (by simpa using h),
          List.find?_cons_of_neg _ (by simpa using h)]
      exact ih

/-! ## The vote state machine -/

/-- The key predicate of a vote row: the (user, post) pair. -/
def voteKey (userId postId : Nat) : LikeRec → Bool :=
  fun l => l.userId == userId && l.postId == postId

theorem castOrRemoveVote_posts (st : State) (u p : Nat) (d : Int) (now : Nat) :
    ((castOrRemoveVote st u p d now).2).posts = st.posts := by
  unfold castOrRemoveVote
  split
  · rfl
  · split
    · split <;> rfl
    · rfl

theorem castOrRemoveVote_notFound {st : State} {p : Nat} (u : Nat) (d : Int)
    (now : Nat) (h : findPost st p = none) :
    castOrRemoveVote st u p d now = (.error .notFound, st) := by
  unfold castOrRemoveVote
  simp [h]

theorem findPost_not_isNone {st : State} {p : Nat} (hp : postExists st p = true) :
    ¬ (findPost st p).isNone = true := by
  simp only [postExists] at hp
  simp [Option.isNone_iff_eq_none, Option.isSome_iff_ne_none.mp hp]

theorem castOrRemoveVote_insert {st : State} {u p : Nat} (d : Int) (now : Nat)
    (hp : postExists st p = true) (hv : findVote st u p = none) :
    castOrRemoveVote st u p d now =
      (.ok d, { st with likes := st.likes ++ [⟨u, p, d, now⟩] }) := by
  unfold castOrRemoveVote
  rw [if_neg (findPost_not_isNone hp), hv]

theorem castOrRemoveVote_toggle {st : State} {u p : Nat} {d : Int} {cur : LikeRec}
    (now : Nat) (hp : postExists st p = true) (hv : findVote st u p = some cur)
    (he : cur.voteType = d) :
    castOrRemoveVote st u p d now =
      (.ok 0,
       { st with likes :=
          st.likes.filter (fun l => !(l.userId == u && l.postId == p)) }) := by
  unfold castOrRemoveVote
  rw [if_neg (findPost_not_isNone hp), hv]
  simp [he]

theorem castOrRemoveVote_switch {st : State} {u p : Nat} {d : Int} {cur : LikeRec}
    (now : Nat) (hp : postExists st p = true) (hv : findVote st u p = some cur)
    (he : cur.voteType ≠ d) :
    castOrRemoveVote st u p d now =
      (.ok d,
       { st with likes :=
          st.likes.map (fun l =>
            if l.userId == u && l.postId == p then
              { l with voteType := d, createdAt := now }
            else l) }) := by
  unfold castOrRemoveVote
  rw [if_neg (findPost_not_isNone hp), hv]
  simp [he]

theorem findVote_after_filter (st : State) (u p : Nat) :
    (st.likes.filter (fun l => !(l.userId == u && l.postId == p))).find?
      (fun l => l.userId == u && l.postId == p) = none := by
  rw [List.find?_eq_none]
  intro x hx
  have h2 := (List.mem_filter.mp hx).2
  simp only [Bool.not_eq_true'] at h2
  simp [h2]

theorem findVote_after_switch (st : State) (u p : Nat) (d : Int) (now : Nat) :
    ((st.likes.map (fun l =>
        if l.userId == u && l.postId == p then
          { l with voteType := d, createdAt := now }
        else l)).find? (fun l => l.userId == u && l.postId == p)) =
      (st.likes.find? (fun l => l.userId == u && l.postId == p)).map
        (fun l => { l with voteType := d, createdAt := now }) :=
  find?_map_update (fun l => l.userId == u && l.postId == p)
    (fun l => { l with voteType := d, createdAt := now }) (fun _ => rfl) st.likes

theorem findVote_after_insert (st : State) (u p : Nat) (d : Int) (now : Nat)
    (hv : findVote st u p = none) :
    ((st.likes ++ [(⟨u, p, d, now⟩ : LikeRec)]).find?
        (fun l => l.userId == u && l.postId == p)) = some ⟨u, p, d, now⟩ := by
  rw [find?_append_none _ hv]
  simp [List.find?_cons_of_pos]

theorem postExists_cast (st : State) (u p : Nat) (d : Int) (now q : Nat) :
    postExists (castOrRemoveVote st u p d now).2 q = postExists st q := by
  unfold postExists findPost
  rw [castOrRemoveVote_posts]

theorem voteStatus_of_findVote_none {st : State} {u p : Nat}
    (h : findVote st u p = none) : voteStatus st u p = 0 := by
  simp [voteStatus, getUserVoteOnPost, h]

theorem voteStatus_of_findVote_some {st : State} {u p : Nat} {cur : LikeRec}
    (h : findVote st u p = some cur) : voteStatus st u p = cur.voteType := by
  simp [voteStatus, getUserVoteOnPost, h]

/-- Casting a vote equal to the current one deletes the row and returns
status 0. -/
theorem cast_result_of_eq {st : State} {u p : Nat} {d : Int} (now : Nat)
    (hp : postExists st p = true) (hd0 : d ≠ 0) (hcur : voteStatus st u p = d) :
    (castOrRemoveVote st u p d now).1 = .ok 0 ∧
    findVote (castOrRemoveVote st u p d now).2 u p = none := by
  cases hfv : findVote st u p with
  | none =>
    exact absurd (hcur.symm.trans (voteStatus_of_findVote_none hfv)) hd0
  | some cur =>
    have hcv : cur.voteType = d := (voteStatus_of_findVote_some hfv).symm.trans hcur
    rw [castOrRemoveVote_toggle now hp hfv hcv]
    exact ⟨rfl, findVote_after_filter st u p⟩

/-- Casting a vote different from the current one (an absent row counts
as 0) upserts the row to the desired type and returns it. -/
theorem cast_result_of_ne {st : State} {u p : Nat} {d : Int} (now : Nat)
    (hp : postExists st p = true) (hcur : voteStatus st u p ≠ d) :
    (castOrRemoveVote st u p d now).1 = .ok d ∧
    ∃ r, findVote (castOrRemoveVote st u p d now).2 u p = some r ∧
      r.voteType = d := by
  cases hfv : findVote st u p with
  | none =>
    rw [castOrRemoveVote_insert d now hp hfv]
    exact ⟨rfl, ⟨u, p, d, now⟩, findVote_after_insert st u p d now hfv, rfl⟩
  | some cur =>
    have hcv : cur.voteType ≠ d := fun he =>
      hcur ((voteStatus_of_findVote_some hfv).trans he)
    rw [castOrRemoveVote_switch now hp hfv hcv]
    refine ⟨rfl, { cur with voteType := d, createdAt := now }, ?_, rfl⟩
    show (st.likes.map _).find? _ = _
    rw [findVote_after_switch st u p d now]
    unfold findVote at hfv
    rw [hfv]
    rfl

/-- Claim C1: for every existing post p and user u, castVote(u, p, d)
with d in the set of +1 and -1 follows the transition rule: if the
current vote of u on p equals d, the vote row is deleted and the call
returns 0 (toggle off); if the current vote differs (an absent row is
treated as 0), the row is upserted to vote_type = d and the call returns
d.  Consequently casting d twice in a row (the first cast actually
casting, that is, from a state whose current vote differs from d) ends
at status 0, and casting +1 then -1 from the no-vote state transitions
directly to -1 with no intermediate no-vote state persisted: after the
first call the stored vote is +1 and after the second it is -1. -/
theorem C1_castVote_transition (st : State) (u p : Nat) (d : Int)
    (now now2 : Nat) (hd : d = 1 ∨ d = -1) (hp : postExists st p = true) :
    (voteStatus st u p = d →
      (castOrRemoveVote st u p d now).1 = .ok 0 ∧
      findVote (castOrRemoveVote st u p d now).2 u p = none ∧
      voteStatus (castOrRemoveVote st u p d now).2 u p = 0) ∧
    (voteStatus st u p ≠ d →
      (castOrRemoveVote st u p d now).1 = .ok d ∧
      voteStatus (castOrRemoveVote st u p d now).2 u p = d) ∧
    (voteStatus st u p ≠ d →
      (castOrRemoveVote (castOrRemoveVote st u p d now).2 u p d now2).1 = .ok 0 ∧
      voteStatus (castOrRemoveVote (castOrRemoveVote st u p d now).2 u p d now2).2 u p = 0) ∧
    (voteStatus st u p = 0 →
      (likePost st u p now).1 = .ok 1 ∧
      voteStatus (likePost st u p now).2 u p = 1 ∧
      (dislikePost (likePost st u p now).2 u p now2).1 = .ok (-1) ∧
      voteStatus (dislikePost (likePost st u p now).2 u p now2).2 u p = -1) := by
  have hd0 : d ≠ 0 := by rcases hd with h | h <;> simp [h]
  have partEq : voteStatus st u p = d →
      (castOrRemoveVote st u p d now).1 = .ok 0 ∧
      findVote (castOrRemoveVote st u p d now).2 u p = none ∧
      voteStatus (castOrRemoveVote st u p d now).2 u p = 0 := by
    intro hcur
    obtain ⟨h1, h2⟩ := cast_result_of_eq now hp hd0 hcur
    exact ⟨h1, h2, voteStatus_of_findVote_none h2⟩
  have partNe : ∀ st' : State, postExists st' p = true → voteStatus st' u p ≠ d →
      (castOrRemoveVote st' u p d now).1 = .ok d ∧
      voteStatus (castOrRemoveVote st' u p d now).2 u p = d := by
    intro st' hp' hcur
    obtain ⟨h1, r, h2, h3⟩ := cast_result_of_ne now hp' hcur
    exact ⟨h1, (voteStatus_of_findVote_some h2).trans h3⟩
  refine ⟨partEq, partNe st hp, ?_, ?_⟩
  · intro hcur
    obtain ⟨h1, h2⟩ := partNe st hp hcur
    have hp' : postExists (castOrRemoveVote st u p d now).2 p = true :=
      (postExists_cast st u p d now p).trans hp
    obtain ⟨g1, g2⟩ := cast_result_of_eq now2 hp' hd0 h2
    exact ⟨g1, voteStatus_of_findVote_none g2⟩
  · intro h0
    have hne1 : voteStatus st u p ≠ 1 := by rw [h0]; decide
    obtain ⟨h1, r, h2, h3⟩ := cast_result_of_ne (d := 1) now hp hne1
    have hs1 : voteStatus (likePost st u p now).2 u p = 1 :=
      (voteStatus_of_findVote_some h2).trans h3
    have hp' : postExists (likePost st u p now).2 p = true :=
      (postExists_cast st u p 1 now p).trans hp
    have hne2 : voteStatus (likePost st u p now).2 u p ≠ -1 := by rw [hs1]; decide
    obtain ⟨g1, s, g2, g3⟩ := cast_result_of_ne (d := -1) now2 hp' hne2
    exact ⟨h1, hs1, g1, (voteStatus_of_findVote_some g2).trans g3⟩

/-- Witness for C1: in the concrete two-user state, user 1 likes post 10
(stored vote becomes +1) and then dislikes it (stored vote becomes -1),
discharging the hypotheses of the transition theorem at that input. -/
theorem C1_castVote_transition_witness :
    voteStatus (likePost exStC2 1 10 200).2 1 10 = 1 ∧
    voteStatus (dislikePost (likePost exStC2 1 10 200).2 1 10 300).2 1 10 = -1 := by
  have h := (C1_castVote_transition exStC2 1 10 1 200 300 (Or.inl rfl)
    (by decide)).2.2.2 (by decide)
  exact ⟨h.2.1, h.2.2.2⟩

/-! ## Preservation of the vote-table invariant -/

theorem votesOK_filter {ls : List LikeRec} (q : LikeRec → Bool)
    (h : VotesOK ls) : VotesOK (ls.filter q) :=
  fun l hl => h l (List.mem_filter.mp hl).1

theorem keysDistinct_filter {ls : List LikeRec} (q : LikeRec → Bool)
    (h : KeysDistinct ls) : KeysDistinct (ls.filter q) :=
  h.sublist (List.filter_sublist _)

theorem votesOK_update {ls : List LikeRec} (u p : Nat) (d : Int) (now : Nat)
    (hd : d = 1 ∨ d = -1) (h : VotesOK ls) :
    VotesOK (ls.map (fun l =>
      if l.userId == u && l.postId == p then
        { l with voteType := d, createdAt := now }
      else l)) := by
  intro x hx
  rcases List.mem_map.mp hx with ⟨a, ha, rfl⟩
  by_cases hk : (a.userId == u && a.postId == p) = true
  · simp only [hk, if_pos]
    exact hd
  · simp only [Bool.not_eq_true] at hk
    simp only [hk, Bool.false_eq_true, if_false]
    exact h a ha

theorem keysDistinct_update {ls : List LikeRec} (u p : Nat) (d : Int) (now : Nat)
    (h : KeysDistinct ls) :
    KeysDistinct (ls.map (fun l =>
      if l.userId == u && l.postId == p then
        { l with voteType := d, createdAt := now }
      else l)) := by
  have hkeep : ∀ a : LikeRec,
      ((if a.userId == u && a.postId == p then
          ({ a with voteType := d, createdAt := now } : LikeRec)
        else a).userId = a.userId ∧
       (if a.userId == u && a.postId == p then
          ({ a with voteType := d, createdAt := now } : LikeRec)
        else a).postId = a.postId) := by
    intro a
    by_cases hk : (a.userId == u && a.postId == p) = true <;> simp [hk]
  unfold KeysDistinct
  rw [List.pairwise_map]
  refine h.imp ?_
  intro a b hab hc
  exact hab ⟨((hkeep a).1.symm.trans hc.1).trans (hkeep b).1,
             ((hkeep a).2.symm.trans hc.2).trans (hkeep b).2⟩

theorem votesOK_insert {ls : List LikeRec} (u p : Nat) (d : Int) (now : Nat)
    (hd : d = 1 ∨ d = -1) (h : VotesOK ls) :
    VotesOK (ls ++ [⟨u, p, d, now⟩]) := by
  intro l hl
  rcases List.mem_append.mp hl with hmem | hmem
  · exact h l hmem
  · simp only [List.mem_singleton] at hmem
    subst hmem
    exact hd

theorem keysDistinct_insert {ls : List LikeRec} {u p : Nat} (d : Int) (now : Nat)
    (h : KeysDistinct ls)
    (hfv : ls.find? (fun l => l.userId == u && l.postId == p) = none) :
    KeysDistinct (ls ++ [⟨u, p, d, now⟩]) := by
  refine List.pairwise_append.mpr ⟨h, List.pairwise_singleton _ _, ?_⟩
  intro a ha b hb
  simp only [List.mem_singleton] at hb
  subst hb
  have := List.find?_eq_none.mp hfv a ha
  simp only [Bool.and_eq_true, beq_iff_eq, not_and] at this
  intro hc
  exact this hc.1 hc.2

theorem likesWF_cast (st : State) (u p : Nat) (d : Int) (now : Nat)
    (hd : d = 1 ∨ d = -1) (h : LikesWF st) :
    LikesWF (castOrRemoveVote st u p d now).2 := by
  by_cases hp : postExists st p = true
  · cases hfv : findVote st u p with
    | none =>
      rw [castOrRemoveVote_insert d now hp hfv]
      exact ⟨votesOK_insert u p d now hd h.1, keysDistinct_insert d now h.2 hfv⟩
    | some cur =>
      by_cases he : cur.voteType = d
      · rw [castOrRemoveVote_toggle now hp hfv he]
        exact ⟨votesOK_filter _ h.1, keysDistinct_filter _ h.2⟩
      · rw [castOrRemoveVote_switch now hp hfv he]
        exact ⟨votesOK_update u p d now hd h.1, keysDistinct_update u p d now h.2⟩
  · have hnone : findPost st p = none := by
      cases hfp : findPost st p with
      | none => rfl
      | some v => exact absurd (by simp [postExists, hfp]) hp
    rw [castOrRemoveVote_notFound u d now hnone]
    exact h

theorem likesWF_applyVoteOp (st : State) (op : VoteOp) (h : LikesWF st) :
    LikesWF (applyVoteOp st op) := by
  unfold applyVoteOp
  by_cases hb : op.isLike = true
  · rw [if_pos hb]
    exact likesWF_cast st op.userId op.postId 1 op.now (Or.inl rfl) h
  · rw [if_neg hb]
    exact likesWF_cast st op.userId op.postId (-1) op.now (Or.inr rfl) h

theorem likesWF_runVotes (st : State) (ops : List VoteOp) (h : LikesWF st) :
    LikesWF (runVotes st ops) := by
  induction ops generalizing st with
  | nil => exact h
  | cons op rest ih => exact ih _ (likesWF_applyVoteOp st op h)

/-! ## Counting the rows a vote operation touches -/

theorem countP_key_le_one {ls : List LikeRec} (u p : Nat)
    (h : KeysDistinct ls) :
    ls.countP (fun l => l.userId == u && l.postId == p) ≤ 1 := by
  induction ls with
  | nil => simp
  | cons a t ih =>
    rcases List.pairwise_cons.mp h with ⟨ha, ht⟩
    by_cases hk : (a.userId == u && a.postId == p) = true
    · rw [List.countP_cons_of_pos (fun l : LikeRec => l.userId == u && l.postId == p) _ hk]
      have hz : t.countP (fun l => l.userId == u && l.postId == p) = 0 := by
        rw [List.countP_eq_zero]
        intro x hx hxk
        simp only [Bool.and_eq_true, beq_iff_eq] at hk hxk
        exact ha x hx ⟨hk.1.trans hxk.1.symm, hk.2.trans hxk.2.symm⟩
      omega
    · rw [List.countP_cons_of_neg (fun l : LikeRec => l.userId == u && l.postId == p) _ (by simpa using hk)]
      exact ih ht

theorem countP_key_eq_one {ls : List LikeRec} {u p : Nat} {cur : LikeRec}
    (h : KeysDistinct ls)
    (hfv : ls.find? (fun l => l.userId == u && l.postId == p) = some cur) :
    ls.countP (fun l => l.userId == u && l.postId == p) = 1 := by
  have hmem := List.mem_of_find?_eq_some hfv
  have hpred := List.find?_some hfv
  have hpos : 0 < ls.countP (fun l => l.userId == u && l.postId == p) :=
    List.countP_pos_iff.mpr ⟨cur, hmem, hpred⟩
  have hle := countP_key_le_one u p h
  omega

theorem length_filter_not_key (ls : List LikeRec) (u p : Nat) :
    (ls.filter (fun l => !(l.userId == u && l.postId == p))).length +
      ls.countP (fun l => l.userId == u && l.postId == p) = ls.length := by
  induction ls with
  | nil => simp
  | cons a t ih =>
    by_cases hk : (a.userId == u && a.postId == p) = true
    · rw [List.countP_cons_of_pos (fun l : LikeRec => l.userId == u && l.postId == p) _ hk]
      simp only [List.filter_cons, hk, Bool.not_true, Bool.false_eq_true,
        if_false, List.length_cons]
      omega
    · rw [List.countP_cons_of_neg (fun l : LikeRec => l.userId == u && l.postId == p) _ (by simpa using hk)]
      simp only [List.filter_cons, hk, Bool.not_eq_true] at *
      simp only [hk, Bool.not_false, if_true, List.length_cons]
      omega

/-- Claim C8: every state reachable by any sequence of vote operations
(likePost / dislikePost, that is, castVote with +1 or -1) from a state
satisfying the vote-table invariant satisfies it too: at most one vote
row per (user, post) pair, every stored vote_type +1 or -1.  Moreover,
toggling the same vote deletes the single row of the pair (the table
shrinks by exactly one row and the pair has no row afterwards), and
casting the opposite vote overwrites vote_type in place rather than
inserting a second row (the table keeps its length and the pair's row
now carries the desired type). -/
theorem C8_vote_row_invariant (st : State) (ops : List VoteOp)
    (h : LikesWF st) :
    LikesWF (runVotes st ops) ∧
    (∀ u p : Nat, ∀ d : Int, ∀ now : Nat, (d = 1 ∨ d = -1) →
      postExists st p = true → voteStatus st u p = d →
      ((castOrRemoveVote st u p d now).2.likes.length + 1 = st.likes.length ∧
       findVote (castOrRemoveVote st u p d now).2 u p = none)) ∧
    (∀ u p : Nat, ∀ d : Int, ∀ now : Nat, (d = 1 ∨ d = -1) →
      postExists st p = true → voteStatus st u p = -d →
      ((castOrRemoveVote st u p d now).2.likes.length = st.likes.length ∧
       ∃ r, findVote (castOrRemoveVote st u p d now).2 u p = some r ∧
         r.voteType = d)) := by
  refine ⟨likesWF_runVotes st ops h, ?_, ?_⟩
  · intro u p d now hd hp hcur
    have hd0 : d ≠ 0 := by rcases hd with h1 | h1 <;> simp [h1]
    cases hfv : findVote st u p with
    | none =>
      exact absurd (hcur.symm.trans (voteStatus_of_findVote_none hfv)) hd0
    | some cur =>
      have hcv : cur.voteType = d := (voteStatus_of_findVote_some hfv).symm.trans hcur
      rw [castOrRemoveVote_toggle now hp hfv hcv]
      have hone := countP_key_eq_one h.2 hfv
      have hlen := length_filter_not_key st.likes u p
      exact ⟨by rw [hone] at hlen; simpa using hlen, findVote_after_filter st u p⟩
  · intro u p d now hd hp hcur
    have hdne : -d ≠ d := by rcases hd with h1 | h1 <;> simp [h1]
    cases hfv : findVote st u p with
    | none =>
      have h0 : (0 : Int) = -d := (voteStatus_of_findVote_none hfv).symm.trans hcur
      rcases hd with h1 | h1 <;> simp [h1] at h0
    | some cur =>
      have hcv : cur.voteType = -d := (voteStatus_of_findVote_some hfv).symm.trans hcur
      have hne : cur.voteType ≠ d := hcv ▸ hdne
      rw [castOrRemoveVote_switch now hp hfv hne]
      refine ⟨by simp, { cur with voteType := d, createdAt := now }, ?_, rfl⟩
      show (st.likes.map _).find? _ = _
      rw [findVote_after_switch st u p d now]
      unfold findVote at hfv
      rw [hfv]
      rfl

/-- Witness for C8: running the concrete sequence like(1,10), then
dislike(2,10), then like(1,10) again from the concrete two-user state
keeps the vote-table invariant. -/
theorem C8_vote_row_invariant_witness :
    LikesWF (runVotes exStC2 [⟨1, 10, true, 200⟩, ⟨2, 10, false, 201⟩,
      ⟨1, 10, true, 202⟩]) :=
  (C8_vote_row_invariant exStC2 [⟨1, 10, true, 200⟩, ⟨2, 10, false, 201⟩,
      ⟨1, 10, true, 202⟩]
    ⟨fun l hl => by simp [exStC2] at hl, List.Pairwise.nil⟩).1

/-! ## Counting votes after a batch of fresh casts -/

theorem find?_fresh_rows_none {p t : Nat} {d : Int} {ws : List Nat} {v : Nat}
    (hnv : v ∉ ws) :
    ((ws.map (fun w => (⟨w, p, d, t⟩ : LikeRec))).find?
      (fun l => l.userId == v && l.postId == p)) = none := by
  rw [List.find?_eq_none]
  intro x hx
  rcases List.mem_map.mp hx with ⟨w, hw, rfl⟩
  have : w ≠ v := fun he => hnv (he ▸ hw)
  simp [this]

/-- Running a batch of casts by users none of whom has a vote on the
post, all users distinct, appends exactly one row per user and leaves
the posts table unchanged. -/
theorem runVotes_fresh (st : State) (p : Nat) (isLike : Bool) (t : Nat)
    (ws : List Nat) (hp : postExists st p = true)
    (hnd : ws.Nodup) (hfresh : ∀ w ∈ ws, findVote st w p = none) :
    (runVotes st (castsOf p isLike ws t)).likes =
      st.likes ++ ws.map (fun w => ⟨w, p, if isLike then 1 else -1, t⟩) ∧
    (runVotes st (castsOf p isLike ws t)).posts = st.posts := by
  induction ws generalizing st with
  | nil => simp [castsOf, runVotes]
  | cons w rest ih =>
    have hfw : findVote st w p = none := hfresh w (by simp)
    have hstep : (applyVoteOp st ⟨w, p, isLike, t⟩) =
        (castOrRemoveVote st w p (if isLike then 1 else -1) t).2 := by
      unfold applyVoteOp likePost dislikePost
      by_cases hb : isLike = true <;> simp [hb]
    have heq := @castOrRemoveVote_insert st w p
      (if isLike then (1 : Int) else -1) t hp hfw
    have hlikes1 : (applyVoteOp st ⟨w, p, isLike, t⟩).likes =
        st.likes ++ [⟨w, p, if isLike then 1 else -1, t⟩] := by
      rw [hstep, heq]
    have hposts1 : (applyVoteOp st ⟨w, p, isLike, t⟩).posts = st.posts := by
      rw [hstep, castOrRemoveVote_posts]
    have hp1 : postExists (applyVoteOp st ⟨w, p, isLike, t⟩) p = true := by
      unfold postExists findPost
      rw [hposts1]
      exact hp
    have hfresh1 : ∀ v ∈ rest, findVote (applyVoteOp st ⟨w, p, isLike, t⟩) v p = none := by
      intro v hv
      unfold findVote
      rw [hlikes1, find?_append_none _ (hfresh v (by simp [hv]))]
      have hwv : w ≠ v := by
        intro he
        subst he
        exact (List.nodup_cons.mp hnd).1 hv
      simp [hwv]
    have hrec := ih (applyVoteOp st ⟨w, p, isLike, t⟩) hp1
      (List.nodup_cons.mp hnd).2 hfresh1
    refine ⟨?_, ?_⟩
    · show (runVotes (applyVoteOp st ⟨w, p, isLike, t⟩) (castsOf p isLike rest t)).likes = _
      rw [hrec.1, hlikes1]
      simp
    · show (runVotes (applyVoteOp st ⟨w, p, isLike, t⟩) (castsOf p isLike rest t)).posts = _
      rw [hrec.2, hposts1]

theorem countP_fresh_rows (p t : Nat) (d e : Int) (ws : List Nat) :
    ((ws.map (fun w => (⟨w, p, d, t⟩ : LikeRec))).countP
      (fun l => l.postId == p && l.voteType == e)) =
      if d = e then ws.length else 0 := by
  induction ws with
  | nil => simp
  | cons w rest ih =>
    simp only [List.map_cons, List.countP_cons]
    by_cases hde : d = e
    · subst hde
      simp only [if_pos rfl] at ih ⊢
      simp [ih]
    · simp only [if_neg hde] at ih
      simp [ih, hde]

/-- Claim C7: getVoteCounts(postId) returns the number of stored +1
rows and of stored -1 rows for the post; in particular, on an existing
post with no prior vote rows, after N like-casts and M dislike-casts by
pairwise distinct users it returns exactly (likeCount N, dislikeCount
M). -/
theorem C7_getVoteCounts (st : State) (p t : Nat) (us vs : List Nat)
    (hp : postExists st p = true)
    (hnd : (us ++ vs).Nodup)
    (hclean : ∀ l ∈ st.likes, l.postId ≠ p) :
    getVoteCounts (runVotes st (castsOf p true us t ++ castsOf p false vs t)) p =
      (us.length, vs.length) := by
  rcases List.nodup_append.mp hnd with ⟨hndu, hndv, hdisj⟩
  have hfreshU : ∀ w ∈ us, findVote st w p = none := by
    intro w _
    rw [findVote, List.find?_eq_none]
    intro x hx
    simp [hclean x hx]
  have step1 := runVotes_fresh st p true t us hp hndu hfreshU
  have hsplit : runVotes st (castsOf p true us t ++ castsOf p false vs t) =
      runVotes (runVotes st (castsOf p true us t)) (castsOf p false vs t) := by
    unfold runVotes
    exact List.foldl_append _ _ _ _
  have hp1 : postExists (runVotes st (castsOf p true us t)) p = true := by
    unfold postExists findPost
    rw [step1.2]
    exact hp
  have hfreshV : ∀ v ∈ vs, findVote (runVotes st (castsOf p true us t)) v p = none := by
    intro v hv
    unfold findVote
    rw [step1.1, List.find?_append]
    have h1 : st.likes.find? (fun l => l.userId == v && l.postId == p) = none := by
      rw [List.find?_eq_none]
      intro x hx
      simp [hclean x hx]
    have h2 := @find?_fresh_rows_none p t
      (if true then (1 : Int) else -1) us v
      (fun hmem => hdisj hmem hv)
    rw [h1, h2]
    rfl
  have step2 := runVotes_fresh (runVotes st (castsOf p true us t)) p false t vs
    hp1 hndv hfreshV
  have hlikes : (runVotes st (castsOf p true us t ++ castsOf p false vs t)).likes =
      st.likes ++ us.map (fun w => ⟨w, p, 1, t⟩) ++
        vs.map (fun w => ⟨w, p, -1, t⟩) := by
    rw [hsplit, step2.1, step1.1]
    simp
  unfold getVoteCounts
  rw [hlikes]
  have hz1 : st.likes.countP (fun l => l.postId == p && l.voteType == 1) = 0 := by
    rw [List.countP_eq_zero]
    intro x hx
    simp [hclean x hx]
  have hz2 : st.likes.countP (fun l => l.postId == p && l.voteType == (-1 : Int)) = 0 := by
    rw [List.countP_eq_zero]
    intro x hx
    simp [hclean x hx]
  have cu1 := countP_fresh_rows p t 1 1 us
  have cu2 := countP_fresh_rows p t 1 (-1) us
  have cv1 := countP_fresh_rows p t (-1) 1 vs
  have cv2 := countP_fresh_rows p t (-1) (-1) vs
  simp only [List.countP_append, hz1, hz2, cu1, cu2, cv1, cv2]
  norm_num

/-- Witness for C7: users 1 and 2 like post 10 and user 3 dislikes it in
the concrete two-user state, giving counts (2, 1). -/
theorem C7_getVoteCounts_witness :
    getVoteCounts (runVotes exStC2
      (castsOf 10 true [1, 2] 300 ++ castsOf 10 false [3] 300)) 10 = (2, 1) :=
  C7_getVoteCounts exStC2 10 300 [1, 2] [3] (by decide) (by decide)
    (fun l hl => by simp [exStC2] at hl)

/-! ## Follow service: error taxonomy -/

/-- Claim C5: followUser(A, A) fails with BadRequest; followUser(A, B)
fails with NotFound when B does not exist, with Conflict when the edge
already exists (so a second identical call right after a successful one
yields Conflict), and otherwise inserts the edge; unfollowUser(A, B)
deletes an existing edge and fails with NotFound when no edge exists
(in particular when no prior follow happened). -/
theorem C5_follow_unfollow (st : State) (A B now now2 : Nat) :
    (followUser st A A now = (.error .badRequest, st)) ∧
    (A ≠ B → userExists st B = false →
      followUser st A B now = (.error .notFound, st)) ∧
    (A ≠ B → userExists st B = true →
      (∃ f ∈ st.follows, f.followerId = A ∧ f.followingId = B) →
      followUser st A B now = (.error .conflict, st)) ∧
    (A ≠ B → userExists st B = true →
      (∀ f ∈ st.follows, ¬(f.followerId = A ∧ f.followingId = B)) →
      followUser st A B now =
        (.ok (), { st with follows := st.follows ++ [⟨A, B, now⟩] }) ∧
      (followUser { st with follows := st.follows ++ [⟨A, B, now⟩] } A B now2).1 =
        .error .conflict) ∧
    ((∃ f ∈ st.follows, f.followerId = A ∧ f.followingId = B) →
      (unfollowUser st A B).1 = .ok () ∧
      (unfollowUser st A B).2 =
        { st with follows :=
            st.follows.filter (fun f => !(f.followerId == A && f.followingId == B)) }) ∧
    ((∀ f ∈ st.follows, ¬(f.followerId = A ∧ f.followingId = B)) →
      unfollowUser st A B = (.error .notFound, st)) := by
  have hfindSome : ∀ fl : List FollowRec,
      (∃ f ∈ fl, f.followerId = A ∧ f.followingId = B) →
      (fl.find? (fun f => f.followerId == A && f.followingId == B)).isSome = true := by
    intro fl hex
    rcases hex with ⟨f, hf, h1, h2⟩
    have hpf : (f.followerId == A && f.followingId == B) = true := by
      simp [h1, h2]
    exact List.find?_isSome.mpr ⟨f, hf, hpf⟩
  have hfindNone : ∀ fl : List FollowRec,
      (∀ f ∈ fl, ¬(f.followerId = A ∧ f.followingId = B)) →
      (fl.find? (fun f => f.followerId == A && f.followingId == B)) = none := by
    intro fl hall
    rw [List.find?_eq_none]
    intro f hf
    simp only [Bool.and_eq_true, beq_iff_eq]
    intro hc
    exact hall f hf hc
  refine ⟨?_, ?_, ?_, ?_, ?_, ?_⟩
  · simp [followUser]
  · intro hAB hB
    have hnone : st.users.find? (fun u => u.id == B) = none := by
      simp only [userExists] at hB
      exact Option.not_isSome_iff_eq_none.mp (by simp [hB])
    unfold followUser
    rw [if_neg (by simpa using hAB), if_pos (by simp [hnone])]
  · intro hAB hB hedge
    have hBsome : ¬ (st.users.find? (fun u => u.id == B)).isNone = true := by
      simp only [userExists] at hB
      simp [Option.isNone_iff_eq_none, Option.isSome_iff_ne_none.mp hB]
    unfold followUser
    rw [if_neg (by simpa using hAB), if_neg hBsome,
      if_pos (hfindSome st.follows hedge)]
  · intro hAB hB hnone
    have hBsome : ¬ (st.users.find? (fun u => u.id == B)).isNone = true := by
      simp only [userExists] at hB
      simp [Option.isNone_iff_eq_none, Option.isSome_iff_ne_none.mp hB]
    have hstep : followUser st A B now =
        (.ok (), { st with follows := st.follows ++ [⟨A, B, now⟩] }) := by
      unfold followUser
      rw [if_neg (by simpa using hAB), if_neg hBsome,
        if_neg (by rw [hfindNone st.follows hnone]; simp)]
    refine ⟨hstep, ?_⟩
    unfold followUser
    rw [if_neg (by simpa using hAB), if_neg hBsome,
      if_pos (hfindSome _ ⟨⟨A, B, now⟩, by simp, rfl, rfl⟩)]
  · intro hedge
    rcases hedge with ⟨f, hf, h1, h2⟩
    have hnp : ¬(!(f.followerId == A && f.followingId == B)) = true := by
      simp [h1, h2]
    have hlt : (st.follows.filter
        (fun f => !(f.followerId == A && f.followingId == B))).length <
        st.follows.length := by
      rw [List.length_filter_lt_length_iff_exists]
      exact ⟨f, hf, hnp⟩
    have hcond : ¬((st.follows.filter
        (fun f => !(f.followerId == A && f.followingId == B))).length ==
          st.follows.length) = true := by
      simp only [beq_iff_eq]
      exact Nat.ne_of_lt hlt
    unfold unfollowUser
    rw [if_neg hcond]
    exact ⟨rfl, rfl⟩
  · intro hall
    have hself : st.follows.filter
        (fun f => !(f.followerId == A && f.followingId == B)) = st.follows := by
      rw [List.filter_eq_self]
      intro f hf
      simp only [Bool.not_eq_true', Bool.and_eq_false_iff]
      have hnot := hall f hf
      by_cases h1 : f.followerId = A
      · have h2 : f.followingId ≠ B := fun h2 => hnot ⟨h1, h2⟩
        right
        simp [h2]
      · left
        simp [h1]
    unfold unfollowUser
    rw [if_pos (by rw [hself]; simp)]

/-! ## Comment service: validation and insertion -/

/-- Claim C6: createComment fails with BadRequest when the content is
empty after trimming (for example "   "), fails with NotFound when the
target post does not exist, and otherwise inserts the trimmed comment
and returns it joined with the public fields of its author; on either
failure the store is unchanged, so no comment row is inserted. -/
theorem C6_createComment (st : State) (userId postId : Nat) (content : String)
    (now : Nat) :
    (trimString content = "" →
      createComment st userId postId content now = (.error .badRequest, st)) ∧
    (trimString content ≠ "" → findPost st postId = none →
      createComment st userId postId content now = (.error .notFound, st)) ∧
    (trimString content ≠ "" → postExists st postId = true →
      (∀ c ∈ st.comments, c.id < st.nextCommentId) →
      ∀ u, st.users.find? (fun x => x.id == userId) = some u →
      ∃ out, (createComment st userId postId content now).1 = .ok out ∧
        out.content = trimString content ∧ out.postId = postId ∧
        out.authorId = u.id ∧ out.authorUsername = u.username ∧
        out.authorProfilePicUrl = u.profilePicUrl ∧
        (createComment st userId postId content now).2.comments =
          st.comments ++ [⟨st.nextCommentId, postId, userId, trimString content, now, now⟩]) := by
  refine ⟨?_, ?_, ?_⟩
  · intro h
    unfold createComment
    rw [if_pos (by simp [h])]
  · intro h hnone
    unfold createComment
    rw [if_neg (by simp [h]), if_pos (by simp [hnone])]
  · intro h hp hbound u hu
    have hfc : st.comments.find? (fun c => c.id == st.nextCommentId) = none := by
      rw [List.find?_eq_none]
      intro c hc
      simp [Nat.ne_of_lt (hbound c hc)]
    have hrow : ((st.comments ++
        [(⟨st.nextCommentId, postId, userId, trimString content, now, now⟩ : CommentRec)]).find?
          (fun c => c.id == st.nextCommentId)) =
        some ⟨st.nextCommentId, postId, userId, trimString content, now, now⟩ := by
      rw [find?_append_none _ hfc]
      simp
    have hcc : createComment st userId postId content now =
        (getCommentWithAuthor
          { st with
            comments := st.comments ++
              [⟨st.nextCommentId, postId, userId, trimString content, now, now⟩],
            nextCommentId := st.nextCommentId + 1 } st.nextCommentId,
         { st with
            comments := st.comments ++
              [⟨st.nextCommentId, postId, userId, trimString content, now, now⟩],
            nextCommentId := st.nextCommentId + 1 }) := by
      unfold createComment
      rw [if_neg (by simp [h]), if_neg (findPost_not_isNone hp)]
    refine ⟨⟨st.nextCommentId, postId, trimString content, now, now,
      u.id, u.username, u.profilePicUrl⟩, ?_, rfl, rfl, rfl, rfl, rfl, ?_⟩
    · rw [hcc]
      show getCommentWithAuthor _ _ = _
      unfold getCommentWithAuthor
      rw [hrow]
      simp only []
      rw [hu]
    · rw [hcc]

/-- Witness for C6: inserting the comment "  hi  " by user 1 on post 10
in the concrete two-user state stores exactly one trimmed comment row,
by the createComment theorem applied at that input. -/
theorem C6_createComment_witness :
    (createComment exStC2 1 10 "  hi  " 400).2.comments =
      exStC2.comments ++ [⟨exStC2.nextCommentId, 10, 1, trimString "  hi  ", 400, 400⟩] := by
  obtain ⟨out, h1, h2, h3, h4, h5, h6, h7⟩ :=
    (C6_createComment exStC2 1 10 "  hi  " 400).2.2 (by decide) (by decide)
      (fun c hc => by simp [exStC2] at hc)
      ⟨1, "alice", none, none, none, 10⟩ rfl
  exact h7

/-! ## Post service: ownership checks -/

theorem findPostById_ok {st : State} {postId : Nat} {q : PostRec}
    (hq : st.posts.find? (fun p => p.id == postId) = some q)
    {u : UserRec} (hu : st.users.find? (fun x => x.id == q.userId) = some u)
    (cu : Option Nat) :
    findPostById st postId cu =
      .ok { id := q.id, content := q.content, imageUrl := q.imageUrl,
            createdAt := q.createdAt, updatedAt := q.updatedAt,
            author := ⟨u.id, u.username, u.fullName, u.profilePicUrl⟩,
            likeCount := (getVoteCounts st postId).1,
            commentCount := getCommentCount st postId,
            currentUserVote := getUserVoteOnPost st cu postId } := by
  unfold findPostById findPost
  rw [hq]
  simp only []
  rw [hu]

/-- The (id, authorId) probe misses exactly when no row matches both. -/
theorem find?_owner_none {st : State} {postId userId : Nat}
    (h : ∀ q ∈ st.posts, ¬(q.id = postId ∧ q.userId = userId)) :
    st.posts.find? (fun p => p.id == postId && p.userId == userId) = none := by
  rw [List.find?_eq_none]
  intro q hq
  simp only [Bool.and_eq_true, beq_iff_eq]
  intro hc
  exact h q hq hc

theorem countP_owner_zero {st : State} {postId userId : Nat}
    (h : ∀ q ∈ st.posts, ¬(q.id = postId ∧ q.userId = userId)) :
    st.posts.countP (fun p => p.id == postId && p.userId == userId) = 0 := by
  rw [List.countP_eq_zero]
  intro q hq
  simp only [Bool.and_eq_true, beq_iff_eq]
  intro hc
  exact h q hq hc

theorem postExists_of_mem {st : State} {postId : Nat} {q : PostRec}
    (hq : q ∈ st.posts) (hid : q.id = postId) : postExists st postId = true := by
  unfold postExists findPost
  have hpq : (q.id == postId) = true := by simp [hid]
  exact (@List.find?_isSome PostRec st.posts (fun p => p.id == postId)).mpr ⟨q, hq, hpq⟩

theorem postExists_false_iff {st : State} {postId : Nat} :
    postExists st postId = false ↔ ∀ q ∈ st.posts, q.id ≠ postId := by
  unfold postExists findPost
  constructor
  · intro h q hq hid
    have hpq : (q.id == postId) = true := by simp [hid]
    have hs := (@List.find?_isSome PostRec st.posts (fun p => p.id == postId)).mpr ⟨q, hq, hpq⟩
    rw [h] at hs
    exact absurd hs (by simp)
  · intro h
    have hnone : st.posts.find? (fun p => p.id == postId) = none := by
      rw [List.find?_eq_none]
      intro q hq
      simp [h q hq]
    simp [hnone]

/-- Claim C4: when the post does not exist, updatePost and deletePost
fail with NotFound; when the post exists but the caller is not its
author, both fail with Forbidden (not NotFound) — the write is filtered
on (id, authorId) and a miss is disambiguated by an existence check on
the id alone; when the caller is the author, both succeed. -/
theorem C4_update_delete_ownership (st : State) (postId userId : Nat)
    (upd : PostUpdateInput)
    (hnd : (st.posts.map (fun p => p.id)).Nodup) :
    ((∀ q ∈ st.posts, q.id ≠ postId) →
      (updatePost st postId userId upd).1 = .error .notFound ∧
      (deletePost st postId userId).1 = .error .notFound) ∧
    ((∃ q ∈ st.posts, q.id = postId) →
      (∀ q ∈ st.posts, q.id = postId → q.userId ≠ userId) →
      (updatePost st postId userId upd).1 = .error .forbidden ∧
      (deletePost st postId userId).1 = .error .forbidden) ∧
    ((∃ q ∈ st.posts, q.id = postId ∧ q.userId = userId) →
      userExists st userId = true →
      (∃ out, (updatePost st postId userId upd).1 = .ok out) ∧
      (deletePost st postId userId).1 = .ok ()) := by
  refine ⟨?_, ?_, ?_⟩
  · intro hab
    have hown : ∀ q ∈ st.posts, ¬(q.id = postId ∧ q.userId = userId) :=
      fun q hq hc => hab q hq hc.1
    have hpe : postExists st postId = false := postExists_false_iff.mpr hab
    have hfe : st.posts.filter
        (fun p => !(p.id == postId && p.userId == userId)) = st.posts := by
      rw [List.filter_eq_self]
      intro q hq
      simp [hab q hq]
    constructor
    · unfold updatePost
      by_cases hupd : (upd.content.isNone && upd.imageUrl.isNone) = true
      · rw [if_pos hupd, find?_owner_none hown]
        simp [hpe]
      · rw [if_neg hupd]
        simp [countP_owner_zero hown, hpe]
    · unfold deletePost
      rw [hfe]
      simp [hpe]
  · intro hex hno
    have hown : ∀ q ∈ st.posts, ¬(q.id = postId ∧ q.userId = userId) :=
      fun q hq hc => hno q hq hc.1 hc.2
    obtain ⟨q, hq, hid⟩ := hex
    have hpe : postExists st postId = true := postExists_of_mem hq hid
    have hfe : st.posts.filter
        (fun p => !(p.id == postId && p.userId == userId)) = st.posts := by
      rw [List.filter_eq_self]
      intro x hx
      have hno' := hown x hx
      by_cases h1 : x.id = postId
      · have h2 : x.userId ≠ userId := fun h2 => hno' ⟨h1, h2⟩
        simp [h2]
      · simp [h1]
    constructor
    · unfold updatePost
      by_cases hupd : (upd.content.isNone && upd.imageUrl.isNone) = true
      · rw [if_pos hupd, find?_owner_none hown]
        simp [hpe]
      · rw [if_neg hupd]
        simp [countP_owner_zero hown, hpe]
    · unfold deletePost
      rw [hfe]
      simp [hpe]
  · intro hex huser
    obtain ⟨q, hq, hid, huid⟩ := hex
    have hpe : postExists st postId = true := postExists_of_mem hq hid
    obtain ⟨q', hq'⟩ := Option.isSome_iff_exists.mp (by
      unfold postExists findPost at hpe
      exact hpe)
    have hq'mem : q' ∈ st.posts := List.mem_of_find?_eq_some hq'
    have hq'id : q'.id = postId := by simpa using List.find?_some hq'
    have hq'q : q' = q :=
      List.inj_on_of_nodup_map hnd hq'mem hq (hq'id.trans hid.symm)
    obtain ⟨u, hu⟩ := Option.isSome_iff_exists.mp (by
      unfold userExists at huser
      exact huser)
    have hownq : (q.id == postId && q.userId == userId) = true := by
      simp [hid, huid]
    constructor
    · by_cases hupd : (upd.content.isNone && upd.imageUrl.isNone) = true
      · obtain ⟨q₀, hq₀⟩ := Option.isSome_iff_exists.mp
          ((@List.find?_isSome PostRec st.posts
            (fun p => p.id == postId && p.userId == userId)).mpr ⟨q, hq, hownq⟩)
        have hup : updatePost st postId userId upd =
            (findPostById st postId (some userId), st) := by
          unfold updatePost
          rw [if_pos hupd, hq₀]
        have hu' : st.users.find? (fun x => x.id == q'.userId) = some u := by
          have hqu : q'.userId = userId := by rw [hq'q]; exact huid
          simp only [hqu]
          exact hu
        have hres := findPostById_ok hq' hu' (some userId)
        exact ⟨_, by rw [hup]; exact hres⟩
      · have hcp : 0 <
            st.posts.countP (fun p => p.id == postId && p.userId == userId) :=
          List.countP_pos_iff.mpr ⟨q, hq, hownq⟩
        have hcond : ¬(st.posts.countP
            (fun p => p.id == postId && p.userId == userId) == 0) = true := by
          simp only [beq_iff_eq]
          omega
        set g := fun p : PostRec =>
          if p.id == postId && p.userId == userId then applyPatch upd p else p with hg
        have hup : updatePost st postId userId upd =
            (findPostById { st with posts := st.posts.map g } postId (some userId),
             { st with posts := st.posts.map g }) := by
          unfold updatePost
          rw [if_neg hupd, if_neg hcond]
        have hgid : ∀ p : PostRec, (g p).id = p.id := by
          intro p
          by_cases hk : (p.id == postId && p.userId == userId) = true
          · have hgp : g p = applyPatch upd p := by rw [hg]; exact if_pos hk
            rw [hgp]
            rfl
          · have hgp : g p = p := by rw [hg]; exact if_neg hk
            rw [hgp]
        have hfind' : (st.posts.map g).find? (fun p => p.id == postId) =
            some (g q') := by
          rw [List.find?_map]
          have hpeq : ((fun p : PostRec => p.id == postId) ∘ g) =
              (fun p : PostRec => p.id == postId) := by
            funext p
            simp [Function.comp, hgid p]
          rw [hpeq, hq']
          rfl
        have hq'own : (q'.id == postId && q'.userId == userId) = true := by
          rw [hq'q]
          exact hownq
        have hgu : (g q').userId = userId := by
          have hgq : g q' = applyPatch upd q' := by rw [hg]; exact if_pos hq'own
          rw [hgq]
          show q'.userId = userId
          rw [hq'q]
          exact huid
        have hu'' : st.users.find? (fun x => x.id == (g q').userId) = some u := by
          simp only [hgu]
          exact hu
        have hres := @findPostById_ok { st with posts := st.posts.map g } postId
          (g q') hfind' u hu'' (some userId)
        exact ⟨_, by rw [hup]; exact hres⟩
    · have hnp : ¬(!(q.id == postId && q.userId == userId)) = true := by
        simp [hid, huid]
      have hlt : (st.posts.filter
          (fun p => !(p.id == postId && p.userId == userId))).length <
          st.posts.length := by
        rw [List.length_filter_lt_length_iff_exists]
        exact ⟨q, hq, hnp⟩
      have hcond : ¬((st.posts.filter
          (fun p => !(p.id == postId && p.userId == userId))).length ==
            st.posts.length) = true := by
        simp only [beq_iff_eq]
        exact Nat.ne_of_lt hlt
      unfold deletePost
      rw [if_neg hcond]

/-- Witness for C4: in the concrete two-user state (post 10 authored by
user 2), the author user 2 can delete post 10 and a full update by user
2 succeeds, by the ownership theorem applied at that input. -/
theorem C4_update_delete_ownership_witness :
    (∃ out, (updatePost exStC2 10 2 ⟨some "edited", none⟩).1 = .ok out) ∧
    (deletePost exStC2 10 2).1 = .ok () :=
  (C4_update_delete_ownership exStC2 10 2 ⟨some "edited", none⟩ (by decide)).2.2
    ⟨⟨10, 2, "hello", none, 50, 50⟩, by decide, rfl, rfl⟩ (by decide)

/-- Claim C10: with an empty patch (neither content nor imageUrl
present) updatePost issues no write — the successor state equals the
input state in every case; when the post exists and the caller is its
author, the call returns the current post with all fields unchanged;
otherwise it still fails with NotFound (post absent) or Forbidden (post
exists, wrong owner); an empty patch is not rejected as an error. -/
theorem C10_updatePost_empty_patch (st : State) (postId userId : Nat)
    (upd : PostUpdateInput) (hc : upd.content = none) (hi : upd.imageUrl = none)
    (hnd : (st.posts.map (fun p => p.id)).Nodup) :
    ((updatePost st postId userId upd).2 = st) ∧
    ((∀ q ∈ st.posts, q.id ≠ postId) →
      (updatePost st postId userId upd).1 = .error .notFound) ∧
    ((∃ q ∈ st.posts, q.id = postId) →
      (∀ q ∈ st.posts, q.id = postId → q.userId ≠ userId) →
      (updatePost st postId userId upd).1 = .error .forbidden) ∧
    (∀ q ∈ st.posts, q.id = postId → q.userId = userId →
      userExists st userId = true →
      ∃ out, (updatePost st postId userId upd).1 = .ok out ∧
        out.id = q.id ∧ out.content = q.content ∧ out.imageUrl = q.imageUrl ∧
        out.createdAt = q.createdAt ∧ out.updatedAt = q.updatedAt) := by
  have hupd : (upd.content.isNone && upd.imageUrl.isNone) = true := by
    simp [hc, hi]
  refine ⟨?_, ?_, ?_, ?_⟩
  · cases hf : st.posts.find? (fun p => p.id == postId && p.userId == userId) with
    | none =>
      unfold updatePost
      rw [if_pos hupd, hf]
      by_cases hpe : postExists st postId = true
      · rw [if_pos hpe]
      · rw [if_neg hpe]
    | some q₀ =>
      unfold updatePost
      rw [if_pos hupd, hf]
  · intro hab
    have hown : ∀ q ∈ st.posts, ¬(q.id = postId ∧ q.userId = userId) :=
      fun q hq hcc => hab q hq hcc.1
    have hpe : postExists st postId = false := postExists_false_iff.mpr hab
    unfold updatePost
    rw [if_pos hupd, find?_owner_none hown]
    simp [hpe]
  · intro hex hno
    have hown : ∀ q ∈ st.posts, ¬(q.id = postId ∧ q.userId = userId) :=
      fun q hq hcc => hno q hq hcc.1 hcc.2
    obtain ⟨q, hq, hid⟩ := hex
    have hpe : postExists st postId = true := postExists_of_mem hq hid
    unfold updatePost
    rw [if_pos hupd, find?_owner_none hown]
    simp [hpe]
  · intro q hq hid huid huser
    have hownq : (q.id == postId && q.userId == userId) = true := by
      simp [hid, huid]
    obtain ⟨q₀, hq₀⟩ := Option.isSome_iff_exists.mp
      ((@List.find?_isSome PostRec st.posts
        (fun p => p.id == postId && p.userId == userId)).mpr ⟨q, hq, hownq⟩)
    have hup : updatePost st postId userId upd =
        (findPostById st postId (some userId), st) := by
      unfold updatePost
      rw [if_pos hupd, hq₀]
    have hpe : postExists st postId = true := postExists_of_mem hq hid
    obtain ⟨q', hq'⟩ := Option.isSome_iff_exists.mp (by
      unfold postExists findPost at hpe
      exact hpe)
    have hq'mem : q' ∈ st.posts := List.mem_of_find?_eq_some hq'
    have hq'id : q'.id = postId := by simpa using List.find?_some hq'
    have hq'q : q' = q :=
      List.inj_on_of_nodup_map hnd hq'mem hq (hq'id.trans hid.symm)
    obtain ⟨u, hu⟩ := Option.isSome_iff_exists.mp (by
      unfold userExists at huser
      exact huser)
    have hu' : st.users.find? (fun x => x.id == q'.userId) = some u := by
      have hqu : q'.userId = userId := by rw [hq'q]; exact huid
      simp only [hqu]
      exact hu
    have hres := findPostById_ok hq' hu' (some userId)
    refine ⟨_, by rw [hup]; exact hres, ?_, ?_, ?_, ?_, ?_⟩ <;>
      simp [hq'q]

/-- Witness for C10: an empty patch on post 10 by its author (user 2)
in the concrete two-user state returns the stored post unchanged and
leaves the store untouched, by the empty-patch theorem applied there. -/
theorem C10_updatePost_empty_patch_witness :
    ((updatePost exStC2 10 2 ⟨none, none⟩).2 = exStC2) ∧
    (∃ out, (updatePost exStC2 10 2 ⟨none, none⟩).1 = .ok out ∧
      out.id = 10 ∧ out.content = "hello" ∧ out.imageUrl = none ∧
      out.createdAt = 50 ∧ out.updatedAt = 50) := by
  have h := C10_updatePost_empty_patch exStC2 10 2 ⟨none, none⟩ rfl rfl (by decide)
  exact ⟨h.1, h.2.2.2 ⟨10, 2, "hello", none, 50, 50⟩ (by decide) rfl rfl (by decide)⟩

/-! ## The feed like-count bug and the follower projection bug -/

/-- Claim C2 (code bug): in the concrete state where user 1 follows
user 2 and user 2 authored post 10, the first feed call for user 1 shows
post 10 with commentCount 0, likeCount 0 and currentUserVote 0, as the
claim says; after user 1 casts a +1 vote on post 10 (the cast returns 1
and getVoteCounts sees exactly one +1 row), the repeated feed call still
reports likeCount 0 although currentUserVote correctly becomes 1: the
batch like-count query aliases its aggregate as count while the merge
step reads the absent key likeCount, so every stored count parses as 0.
The claim expects likeCount 1 at this input. -/
theorem C2_feed_likeCount_bug :
    (getFeedForUser exStC2 1 20 0).map
      (fun o => (o.id, o.likeCount, o.commentCount, o.currentUserVote)) =
      [(10, 0, 0, 0)] ∧
    (likePost exStC2 1 10 200).1 = .ok 1 ∧
    getVoteCounts exStC2b 10 = (1, 0) ∧
    (getFeedForUser exStC2b 1 20 0).map
      (fun o => (o.id, o.likeCount, o.currentUserVote)) = [(10, 0, 1)] := by
  refine ⟨by decide, by rfl, by decide, by decide⟩

/-- Claim C9 (code bug): getFollowing projects the profile picture under
the key profilePicUrl, but getFollowers aliases the same column as
profilPicUrl (a misspelling), so a follower row carries no profilePicUrl
key at all: with user 1 (picture pic1.png) following user 2 (picture
pic2.png), the single getFollowers(2) row yields none for profilePicUrl
and holds the picture under profilPicUrl, while the single
getFollowing(1) row holds it under profilePicUrl as the claim says. -/
theorem C9_getFollowers_alias_bug :
    (getFollowers exStC9 2 20 0).map (rowGet .profilePicUrl) = [none] ∧
    (getFollowers exStC9 2 20 0).map (rowGet .profilPicUrl) =
      [some (.vstr "pic1.png")] ∧
    (getFollowing exStC9 1 20 0).map (rowGet .profilePicUrl) =
      [some (.vstr "pic2.png")] := by
  refine ⟨by decide, by decide, by decide⟩

/-! ## Refinement of the feed against its specification -/

theorem userFor_id {st : State} {i : Nat} (h : userExists st i = true) :
    (userFor st i).id = i := by
  obtain ⟨u, hu⟩ := Option.isSome_iff_exists.mp (by
    unfold userExists at h
    exact h)
  unfold userFor
  rw [hu, Option.getD_some]
  simpa using List.find?_some hu

theorem join_pairs_eq (st : State) (l : List FollowRec)
    (h : ∀ f ∈ l, userExists st f.followingId = true) :
    (l.filterMap (fun f =>
      (st.users.find? (fun u => u.id == f.followingId)).map (fun u => (f, u)))) =
      l.map (fun f => (f, userFor st f.followingId)) := by
  induction l with
  | nil => rfl
  | cons a t ih =>
    obtain ⟨u, hu⟩ := Option.isSome_iff_exists.mp (by
      have ha := h a (by simp)
      unfold userExists at ha
      exact ha)
    have h1 : (st.users.find? (fun x => x.id == a.followingId)).map
        (fun u => (a, u)) = some (a, u) := by rw [hu]; rfl
    have h2 : (a, userFor st a.followingId) = ((a, u) : FollowRec × UserRec) := by
      unfold userFor
      rw [hu]
      rfl
    simp only [List.filterMap_cons, List.map_cons, h1, h2]
    exact congrArg _ (ih fun x hx => h x (by simp [hx]))

theorem join_posts_eq (st : State) (l : List PostRec)
    (h : ∀ p ∈ l, userExists st p.userId = true) :
    (l.filterMap (fun p =>
      (st.users.find? (fun u => u.id == p.userId)).map (fun u => (p, u)))) =
      l.map (fun p => (p, userFor st p.userId)) := by
  induction l with
  | nil => rfl
  | cons a t ih =>
    obtain ⟨u, hu⟩ := Option.isSome_iff_exists.mp (by
      have ha := h a (by simp)
      unfold userExists at ha
      exact ha)
    have h1 : (st.users.find? (fun x => x.id == a.userId)).map
        (fun u => (a, u)) = some (a, u) := by rw [hu]; rfl
    have h2 : (a, userFor st a.userId) = ((a, u) : PostRec × UserRec) := by
      unfold userFor
      rw [hu]
      rfl
    simp only [List.filterMap_cons, List.map_cons, h1, h2]
    exact congrArg _ (ih fun x hx => h x (by simp [hx]))

theorem followingUsers_ids (st : State) (uid limit offset : Nat)
    (hF : ∀ f ∈ st.follows, userExists st f.followingId = true) :
    (followingUsers st uid limit offset).map (fun u => u.id) =
      (pageOf offset limit (sortDesc (fun f => f.createdAt)
        (st.follows.filter (fun f => f.followerId == uid)))).map
        (fun f => f.followingId) := by
  unfold followingUsers followingJoin
  rw [join_pairs_eq st _ (fun f hf => hF f (List.mem_filter.mp hf).1)]
  rw [sortDesc_map, pageOf_map, List.map_map, List.map_map]
  show (pageOf offset limit (sortDesc (fun f => f.createdAt)
      (st.follows.filter (fun f => f.followerId == uid)))).map _ = _
  apply List.map_congr_left
  intro f hf
  have hmem : f ∈ st.follows :=
    (List.mem_filter.mp (mem_sortDesc.mp (mem_pageOf hf))).1
  show (userFor st f.followingId).id = f.followingId
  exact userFor_id (hF f hmem)

theorem feedAuthorIds_eq (st : State) (uid : Nat)
    (hF : ∀ f ∈ st.follows, userExists st f.followingId = true) :
    feedAuthorIds st uid = specCappedAuthorIds st uid := by
  unfold feedAuthorIds specCappedAuthorIds
  congr 1
  rw [followingUsers_ids st uid 1000 0 hF]
  unfold pageOf
  rw [List.drop_zero]

theorem feedPage_eq (st : State) (uid limit offset : Nat)
    (hF : ∀ f ∈ st.follows, userExists st f.followingId = true)
    (hP : ∀ p ∈ st.posts, userExists st p.userId = true) :
    feedPage st uid limit offset =
      (specFeedPosts st uid limit offset).map (fun p => (p, userFor st p.userId)) := by
  unfold feedPage postJoin specFeedPosts
  rw [feedAuthorIds_eq st uid hF, join_posts_eq st _ hP, List.filter_map,
    sortDesc_map, pageOf_map]
  rfl

theorem getFeedForUser_ids_shape (st : State) (uid limit offset : Nat) :
    (getFeedForUser st uid limit offset).map (fun o => o.id) =
      (feedPage st uid limit offset).map (fun x => x.1.id) := by
  unfold getFeedForUser
  by_cases hemp : (feedPage st uid limit offset).isEmpty = true
  · rw [if_pos hemp]
    rw [List.isEmpty_iff.mp hemp]
    rfl
  · rw [if_neg hemp, List.map_map]
    rfl

/-- The central refinement: under referential integrity (every followed
user and every post author exists), the feed returns exactly the ids of
the specification-side page. -/
theorem feed_ids_eq_spec (st : State) (uid limit offset : Nat)
    (hF : ∀ f ∈ st.follows, userExists st f.followingId = true)
    (hP : ∀ p ∈ st.posts, userExists st p.userId = true) :
    (getFeedForUser st uid limit offset).map (fun o => o.id) =
      (specFeedPosts st uid limit offset).map (fun p => p.id) := by
  rw [getFeedForUser_ids_shape, feedPage_eq st uid limit offset hF hP,
    List.map_map]
  rfl

theorem getFeedForUser_sorted (st : State) (uid limit offset : Nat) :
    (getFeedForUser st uid limit offset).Pairwise
      (fun a b => b.createdAt ≤ a.createdAt) := by
  unfold getFeedForUser
  by_cases hemp : (feedPage st uid limit offset).isEmpty = true
  · rw [if_pos hemp]
    exact List.Pairwise.nil
  · rw [if_neg hemp, List.pairwise_map]
    have hs : (feedPage st uid limit offset).Pairwise
        (fun x y => y.1.createdAt ≤ x.1.createdAt) :=
      (pairwise_sortDesc _ _).sublist (pageOf_sublist _ _ _)
    exact hs

/-- Claim C3, amended by the internal cap of 1000 followed users: under
referential integrity, getFeedForUser(u, limit, offset) returns exactly
the posts whose author is u or one of the up-to-1000 most recently
followed users of u, ordered by post creation time descending and
paginated by limit/offset; a user who follows nobody and has authored
P ≤ limit posts receives, at offset 0, exactly their own P posts newest
first; and when the page of posts is empty the result is the empty
list. -/
theorem C3_feed_selection (st : State) (uid limit offset : Nat)
    (hF : ∀ f ∈ st.follows, userExists st f.followingId = true)
    (hP : ∀ p ∈ st.posts, userExists st p.userId = true) :
    ((getFeedForUser st uid limit offset).map (fun o => o.id) =
      (specFeedPosts st uid limit offset).map (fun p => p.id)) ∧
    (getFeedForUser st uid limit offset).Pairwise
      (fun a b => b.createdAt ≤ a.createdAt) ∧
    (st.follows.filter (fun f => f.followerId == uid) = [] →
      (st.posts.filter (fun p => p.userId == uid)).length ≤ limit →
      offset = 0 →
      (getFeedForUser st uid limit offset).map (fun o => o.id) =
        (sortDesc (fun p => p.createdAt)
          (st.posts.filter (fun p => p.userId == uid))).map (fun p => p.id)) ∧
    (specFeedPosts st uid limit offset = [] →
      getFeedForUser st uid limit offset = []) := by
  refine ⟨feed_ids_eq_spec st uid limit offset hF hP,
    getFeedForUser_sorted st uid limit offset, ?_, ?_⟩
  · intro hnone hlen hoff
    subst hoff
    rw [feed_ids_eq_spec st uid limit 0 hF hP]
    have hcap : specCappedAuthorIds st uid = [uid] := by
      unfold specCappedAuthorIds
      rw [hnone]
      rfl
    unfold specFeedPosts
    rw [hcap]
    have hfe : st.posts.filter (fun p => ([uid].contains p.userId)) =
        st.posts.filter (fun p => p.userId == uid) := by
      apply List.filter_congr
      intro p _
      rw [List.contains_cons]
      show (p.userId == uid || List.contains [] p.userId) = (p.userId == uid)
      rw [List.contains_nil, Bool.or_false]
    rw [hfe]
    have hlen' : (sortDesc (fun p => p.createdAt)
        (st.posts.filter (fun p => p.userId == uid))).length ≤ limit := by
      rw [length_sortDesc]
      exact hlen
    rw [pageOf_eq_self hlen']
  · intro hspec
    have h1 := feed_ids_eq_spec st uid limit offset hF hP
    rw [hspec] at h1
    simp only [List.map_nil] at h1
    exact List.map_eq_nil_iff.mp h1

/-- Witness for the amended claim C3: in the concrete two-user state,
the feed of user 1 matches the specification page, by the selection
theorem applied there. -/
theorem C3_feed_selection_witness :
    (getFeedForUser exStC2 1 20 0).map (fun o => o.id) =
      (specFeedPosts exStC2 1 20 0).map (fun p => p.id) :=
  (C3_feed_selection exStC2 1 20 0 (by decide) (by decide)).1

theorem bigSt_userExists {i : Nat} (h : i < 1001) :
    userExists bigSt (i + 1) = true := by
  have hmem : plainUser (i + 1) ∈ bigSt.users := by
    refine List.mem_append.mpr (Or.inl ?_)
    exact List.mem_map.mpr ⟨i, List.mem_range.mpr h, rfl⟩
  have hpred : ((plainUser (i + 1)).id == i + 1) = true := by
    simp [plainUser]
  exact (@List.find?_isSome UserRec bigSt.users
    (fun u => u.id == i + 1)).mpr ⟨plainUser (i + 1), hmem, hpred⟩

set_option maxRecDepth 40000 in
/-- Counterexample to claim C3 as stated: user 0 follows user 1001 (the
oldest of their 1001 follow edges), user 1001 authored the only post
(post 10), and the page described by the claim (authors = user 0 plus
every followed user, ordered, paginated with limit 20 offset 0) contains
exactly post 10 — yet getFeedForUser returns the empty list, because the
feed resolves the author set through getFollowing with an internal limit
of 1000, which drops the oldest follow edge. -/
theorem C3_uncapped_claim_false :
    (⟨0, 1001, 19000⟩ : FollowRec) ∈ bigSt.follows ∧
    bigSt.posts.map (fun p => (p.id, p.userId)) = [(10, 1001)] ∧
    (claimFeedPosts bigSt 0 20 0).map (fun p => p.id) = [10] ∧
    getFeedForUser bigSt 0 20 0 = [] := by
  have hbf : bigSt.follows =
      (List.range 1001).map (fun i => (⟨0, i + 1, 20000 - i⟩ : FollowRec)) := rfl
  refine ⟨?_, rfl, by decide, ?_⟩
  · rw [hbf]
    exact List.mem_map.mpr ⟨1000, List.mem_range.mpr (by norm_num), rfl⟩
  · have hF : ∀ f ∈ bigSt.follows, userExists bigSt f.followingId = true := by
      intro f hf
      rw [hbf] at hf
      obtain ⟨i, hi, rfl⟩ := List.mem_map.mp hf
      exact bigSt_userExists (List.mem_range.mp hi)
    have hP : ∀ p ∈ bigSt.posts, userExists bigSt p.userId = true := by
      intro p hp
      have hp0 : p ∈ [(⟨10, 1001, "p", none, 500, 500⟩ : PostRec)] := hp
      rw [List.mem_singleton.mp hp0]
      exact bigSt_userExists (i := 1000) (by norm_num)
    have hids := feed_ids_eq_spec bigSt 0 20 0 hF hP
    have hfilter : bigSt.follows.filter (fun f => f.followerId == 0) =
        bigSt.follows := by
      rw [List.filter_eq_self]
      intro f hf
      rw [hbf] at hf
      obtain ⟨i, _, rfl⟩ := List.mem_map.mp hf
      rfl
    have hsorted : bigSt.follows.Pairwise
        (fun a b => b.createdAt ≤ a.createdAt) := by
      rw [hbf, List.pairwise_map]
      refine (List.pairwise_lt_range 1001).imp ?_
      intro i j hij
      show 20000 - j ≤ 20000 - i
      omega
    have hcap : specCappedAuthorIds bigSt 0 =
        0 :: (List.range 1000).map (fun i => i + 1) := by
      unfold specCappedAuthorIds
      rw [hfilter, sortDesc_eq_self hsorted, hbf, ← List.map_take,
        List.take_range]
      rw [List.map_map]
      norm_num
    have hnomem : (1001 : Nat) ∉
        (0 :: (List.range 1000).map (fun i => i + 1)) := by
      intro hmem
      rcases List.mem_cons.mp hmem with h0 | hmem'
      · exact absurd h0 (by norm_num)
      · obtain ⟨i, hi, hieq⟩ := List.mem_map.mp hmem'
        have := List.mem_range.mp hi
        omega
    have hcontains : ((specCappedAuthorIds bigSt 0).contains 1001) = false := by
      rw [hcap]
      exact decide_eq_false hnomem
    have hspec : specFeedPosts bigSt 0 20 0 = [] := by
      unfold specFeedPosts
      have hfp : bigSt.posts.filter
          (fun p => (specCappedAuthorIds bigSt 0).contains p.userId) = [] := by
        show List.filter _ [(⟨10, 1001, "p", none, 500, 500⟩ : PostRec)] = []
        rw [List.filter_cons_of_neg]
        · rfl
        · exact (by simpa using hcontains)
      rw [hfp]
      rfl
    rw [hspec] at hids
    simp only [List.map_nil] at hids
    exact List.map_eq_nil_iff.mp hids

end Mementogram
